import Mathlib

/-!
Verification of the AuthenticationRelay core: a shallow embedding of the
session cookie cache (`src/storage/cookie_cache.py`), the session
coordinator (`AuthService.get_cookie` in `src/auth/engine.py`), the
validation orchestrator (`AuthEngine.validate_cookies`), the credential
vault's internal read path (`CredentialStore.get_provider_with_credentials`
in `src/storage/credential.py`) and the Fernet symmetric cipher used by
`CryptoManager` (`src/utils/crypto.py`).

Python dictionaries are modelled as association lists in insertion order
with unique keys; browser/database effects are modelled as oracles
(`Except`-valued parameters); timestamps are abstract `Nat` instants.
-/

namespace AuthRelay

/-- A Python `dict` with string keys, modelled as an association list in
insertion order.  All dictionaries built by the code have unique keys. -/
abbrev Dict (β : Type) := List (String × β)

/-- `d.get(k)`: first value bound to `k`, if any. -/
def dget {β : Type} (l : Dict β) (k : String) : Option β :=
  match l with
  | [] => none
  | (k', v) :: rest => if k' = k then some v else dget rest k

/-- `d[k] = v`: replace the binding of `k` in place, or append it. -/
def dput {β : Type} (l : Dict β) (k : String) (v : β) : Dict β :=
  match l with
  | [] => [(k, v)]
  | (k', v') :: rest => if k' = k then (k', v) :: rest else (k', v') :: dput rest k v

/-- `del d[k]`: remove the binding of `k` (all occurrences; keys are unique
in every dictionary the code builds, so this coincides with Python). -/
def ddel {β : Type} (l : Dict β) (k : String) : Dict β :=
  match l with
  | [] => []
  | (k', v') :: rest => if k' = k then ddel rest k else (k', v') :: ddel rest k

/-- Cookie name → value mapping (`dict[str, str]`). -/
abbrev Cookies := Dict String

/-- `CachedCookie` dataclass from `cookie_cache.py`. -/
structure CachedCookie where
  cookies : Cookies
  created_at : Nat
  last_validated_at : Option Nat
  validation_count : Nat
deriving Repr, DecidableEq

/-- `CachedCookie.mark_validated`: stamp the validation time, bump the counter. -/
def CachedCookie.mark_validated (c : CachedCookie) (now : Nat) : CachedCookie :=
  { c with last_validated_at := some now, validation_count := c.validation_count + 1 }

/-- `CookieCache`: two-level mapping `{provider_id: {key: CachedCookie}}`. -/
structure CookieCache where
  cache : Dict (Dict CachedCookie)
deriving Repr, DecidableEq

namespace CookieCache

/-- `CookieCache.get`: defensive copy of the cookies of entry `(pid, k)`.
`if not provider_cache` is Python truthiness: an absent or empty inner
dictionary both read as a miss.  `.copy()` of a mapping is the identity on
values. -/
def get (c : CookieCache) (pid k : String) : Option Cookies :=
  match dget c.cache pid with
  | none => none
  | some pc =>
    if pc.isEmpty then none
    else
      match dget pc k with
      | none => none
      | some e => some e.cookies

/-- `CookieCache.get_cached_entry`: the entry with its metadata. -/
def get_cached_entry (c : CookieCache) (pid k : String) : Option CachedCookie :=
  match dget c.cache pid with
  | none => none
  | some pc => if pc.isEmpty then none else dget pc k

/-- `CookieCache.set`: create the inner dictionary if the provider is absent,
then overwrite entry `(pid, k)` with a fresh `CachedCookie` holding a copy
of `cookies` and reset metadata. -/
def set (c : CookieCache) (pid k : String) (cookies : Cookies) (now : Nat) : CookieCache :=
  let pc := (dget c.cache pid).getD []
  ⟨dput c.cache pid (dput pc k ⟨cookies, now, none, 0⟩)⟩

/-- `CookieCache.mark_validated`: in-place update of the entry found by
`get_cached_entry`; no-op when absent. -/
def mark_validated (c : CookieCache) (pid k : String) (now : Nat) : CookieCache :=
  match c.get_cached_entry pid k with
  | none => c
  | some e =>
    let pc := (dget c.cache pid).getD []
    ⟨dput c.cache pid (dput pc k (e.mark_validated now))⟩

/-- `CookieCache.invalidate`: delete entry `(pid, k)` from the inner
dictionary when present, reporting whether a deletion happened. -/
def invalidate (c : CookieCache) (pid k : String) : Bool × CookieCache :=
  match dget c.cache pid with
  | none => (false, c)
  | some pc =>
    if pc.isEmpty then (false, c)
    else
      match dget pc k with
      | none => (false, c)
      | some _ => (true, ⟨dput c.cache pid (ddel pc k)⟩)

/-- `CookieCache.invalidate_provider`: drop the whole inner dictionary of
`pid` when the key is present (`in` check, not truthiness), returning how
many entries it held. -/
def invalidate_provider (c : CookieCache) (pid : String) : Nat × CookieCache :=
  match dget c.cache pid with
  | none => (0, c)
  | some pc => (pc.length, ⟨ddel c.cache pid⟩)

end CookieCache

/-- A decrypted field account as seen by the coordinator: `key`, `username`,
`password`.  An empty string models a missing/`None`/empty value (all falsy
in Python). -/
structure Field where
  key : String
  username : String
  password : String
deriving Repr, DecidableEq

/-- The provider configuration dictionary fields that the embedded paths
consult.  An empty string models an absent/`None` configuration value. -/
structure Provider where
  id : String
  login_url : String
  validate_url : String
  invalid_indicator : String
  fields : List Field
deriving Repr, DecidableEq

/-- A `fields` table row: the password column holds the stored (normally
encrypted) value. -/
structure FieldRow where
  key : String
  username : String
  password : String
deriving Repr, DecidableEq

/-- A `providers` table row together with its `fields` rows. -/
structure ProviderRow where
  id : String
  login_url : String
  validate_url : String
  invalid_indicator : String
  fields : List FieldRow
deriving Repr, DecidableEq

/-- The per-field decryption step of
`CredentialStore.get_provider_with_credentials`: when the stored password is
non-empty, try to decrypt it; on any decryption exception keep the stored
ciphertext as the password. -/
def decryptFieldRow (decrypt : String → Except String String) (f : FieldRow) : Field :=
  { key := f.key, username := f.username,
    password :=
      if f.password = "" then f.password
      else
        match decrypt f.password with
        | .ok p => p
        | .error _ => f.password }

/-- Assemble the provider dictionary returned by
`get_provider_with_credentials` from its row. -/
def rowToProvider (decrypt : String → Except String String) (pr : ProviderRow) : Provider :=
  ⟨pr.id, pr.login_url, pr.validate_url, pr.invalid_indicator,
   pr.fields.map (decryptFieldRow decrypt)⟩

/-- `CredentialStore.get_provider_with_credentials`: `None` when the provider
row is absent, otherwise the provider dictionary with each field's password
decrypted best-effort. -/
def get_provider_with_credentials (db : String → Option ProviderRow)
    (decrypt : String → Except String String) (provider_id : String) : Option Provider :=
  match db provider_id with
  | none => none
  | some pr => some (rowToProvider decrypt pr)

/-- The auth engine as seen by the coordinator: two effectful oracles.
`validate` is the result of `AuthEngine.validate_cookies` (which may itself
raise), `login` the result of `AuthEngine.login` (`.error` is the
`AuthenticationError` it raises on failure). -/
structure Engine where
  validate : Provider → Cookies → Except String Bool
  login : Provider → String → String → Except String Cookies
deriving Inhabited

/-- Outcome of one `AuthService.get_cookie` call: the returned cookies or the
raised `AuthenticationError` message, the cookie cache afterwards, and how
many times the engine's `login` and `validate_cookies` were invoked. -/
structure CoordResult where
  result : Except String Cookies
  cache : CookieCache
  loginCalls : Nat
  validateCalls : Nat

/-- The field-lookup loop of `AuthService.get_cookie`: first field whose
`key` matches (the loop breaks at the first hit). -/
def findField (fields : List Field) (key : String) : Option Field :=
  fields.find? (fun f => f.key == key)

/-- The login tail of `AuthService.get_cookie`: run `AuthEngine.login`, and on
success store the fresh cookies in the cache and return them; the
`AuthenticationError` raised by a failed login propagates. -/
def doLogin (engine : Engine) (provider : Provider) (field : Field)
    (cache : CookieCache) (now : Nat) (pid k : String) (vCalls : Nat) : CoordResult :=
  match engine.login provider field.username field.password with
  | .error e => ⟨.error e, cache, 1, vCalls⟩
  | .ok cookies => ⟨.ok cookies, cache.set pid k cookies now, 1, vCalls⟩

/-- `AuthService.get_cookie`, with the credential store abstracted as `store`,
the browser engine as `engine`, and the current instant as `now`.
`if cached_cookies:` is Python truthiness, so an empty cached mapping takes
the login path. -/
def get_cookie (engine : Engine) (store : String → Option Provider)
    (cache : CookieCache) (now : Nat) (provider_id key : String) : CoordResult :=
  match store provider_id with
  | none => ⟨.error ("SSO 平台 '" ++ provider_id ++ "' 不存在"), cache, 0, 0⟩
  | some provider =>
    match findField provider.fields key with
    | none =>
      ⟨.error ("字段 '" ++ key ++ "' 不存在于平台 '" ++ provider_id ++ "'"), cache, 0, 0⟩
    | some field =>
      if field.username = "" ∨ field.password = "" then
        ⟨.error "用户名或密码未配置", cache, 0, 0⟩
      else
        match cache.get provider_id key with
        | none => doLogin engine provider field cache now provider_id key 0
        | some cached_cookies =>
          if cached_cookies.isEmpty then
            doLogin engine provider field cache now provider_id key 0
          else
            match engine.validate provider cached_cookies with
            | .error e => ⟨.error e, cache, 0, 1⟩
            | .ok true =>
              ⟨.ok cached_cookies, cache.mark_validated provider_id key now, 0, 1⟩
            | .ok false =>
              doLogin engine provider field (cache.invalidate provider_id key).2 now
                provider_id key 1

/-- The awaited effects inside `AuthEngine.validate_cookies`, as oracles.
`check_invalid_indicator` is the result of `_check_invalid_indicator`
(true when the invalidity indicator is found). -/
structure ValidateEnv where
  ensure_browser : Except String Unit
  new_context : Except String Unit
  add_cookies : Except String Unit
  new_page : Except String Unit
  goto : Except String Unit
  check_invalid_indicator : Except String Bool

/-- `AuthEngine.validate_cookies`.  No configured `validate_url` returns valid
unconditionally.  `_ensure_browser` and `browser.new_context()` run before
the `try` block, so their exceptions propagate.  Exceptions inside the `try`
body are caught and become `False`.  The `finally` close of the context runs
on every path; if it raises, that exception supersedes the result. -/
def validate_cookies (env : ValidateEnv) (close : Except String Unit)
    (provider : Provider) (cookies : Cookies) : Except String Bool :=
  if provider.validate_url = "" then .ok true
  else
    match env.ensure_browser with
    | .error e => .error e
    | .ok _ =>
      match env.new_context with
      | .error e => .error e
      | .ok _ =>
        let body : Except String Bool :=
          match env.add_cookies with
          | .error _ => .ok false
          | .ok _ =>
            match env.new_page with
            | .error _ => .ok false
            | .ok _ =>
              match env.goto with
              | .error _ => .ok false
              | .ok _ =>
                if provider.invalid_indicator = "" then .ok true
                else
                  match env.check_invalid_indicator with
                  | .error _ => .ok false
                  | .ok true => .ok false
                  | .ok false => .ok true
        match close with
        | .error e => .error e
        | .ok _ => body

/-- A heap of cookie-mapping objects; an address is an index into the cell
list, reading an unallocated address defaults to the empty mapping. -/
structure RefHeap where
  cells : List Cookies
deriving Repr, DecidableEq

/-- Dereference an address. -/
def RefHeap.read (h : RefHeap) (a : Nat) : Cookies := h.cells.getD a []

/-- Allocate a fresh object (`dict.copy()` allocates). -/
def RefHeap.alloc (h : RefHeap) (d : Cookies) : RefHeap × Nat :=
  (⟨h.cells ++ [d]⟩, h.cells.length)

/-- Mutate the object at an address in place. -/
def RefHeap.write (h : RefHeap) (a : Nat) (d : Cookies) : RefHeap :=
  ⟨h.cells.set a d⟩

/-- Number of allocated addresses. -/
def RefHeap.size (h : RefHeap) : Nat := h.cells.length

/-- `CachedCookie` with its `cookies` dictionary held by reference, to state
object-identity properties. -/
structure CachedCookieRef where
  cookiesAddr : Nat
  created_at : Nat
  last_validated_at : Option Nat
  validation_count : Nat
deriving Repr, DecidableEq

/-- `CookieCache` over the object heap. -/
structure CookieCacheRef where
  cache : Dict (Dict CachedCookieRef)
deriving Repr, DecidableEq

/-- `CookieCache.set` with explicit object identity: the entry stores a fresh
copy (`cookies.copy()`) of the mapping at `addr`. -/
def CookieCacheRef.set (h : RefHeap) (c : CookieCacheRef) (pid k : String)
    (addr : Nat) (now : Nat) : RefHeap × CookieCacheRef :=
  let al := h.alloc (h.read addr)
  let pc := (dget c.cache pid).getD []
  (al.1, ⟨dput c.cache pid (dput pc k ⟨al.2, now, none, 0⟩)⟩)

/-- `CookieCache.get` with explicit object identity: a hit returns the address
of a fresh copy (`cached.cookies.copy()`) of the entry's mapping. -/
def CookieCacheRef.get (h : RefHeap) (c : CookieCacheRef) (pid k : String) :
    RefHeap × Option Nat :=
  match dget c.cache pid with
  | none => (h, none)
  | some pc =>
    if pc.isEmpty then (h, none)
    else
      match dget pc k with
      | none => (h, none)
      | some e =>
        let al := h.alloc (h.read e.cookiesAddr)
        (al.1, some al.2)

/-!
The Fernet scheme behind `CryptoManager.encrypt` / `CryptoManager.decrypt`
(library `cryptography.fernet`, not vendored in the repository), modelled
from its published token format over byte sequences (`Nat`s below 256,
the UTF-8 encoding of the secret string): a token is the urlsafe base64
encoding of `0x80 ‖ timestamp(8) ‖ IV(16) ‖ AES128-CBC(PKCS7(msg)) ‖
HMAC(32)`, decryption checks the version byte and the HMAC and undoes the
layers.  The AES-128 block permutation and the HMAC-SHA256 tag are the
library's keyed primitives; they enter as parameters (`E`, `D`, `H`)
carrying exactly their contracts: `D` inverts `E`, blocks stay 16 bytes,
tags are 32 bytes.  Everything else — PKCS7 padding, CBC chaining, token
assembly and parsing, base64url — is embedded concretely.
-/

/-- XOR of two byte sequences, pointwise. -/
def xorBytes (a b : List Nat) : List Nat := List.zipWith (fun x y => x ^^^ y) a b

/-- Split a byte sequence into consecutive 16-byte blocks. -/
def toBlocks (l : List Nat) : List (List Nat) :=
  if l = [] then []
  else l.take 16 :: toBlocks (l.drop 16)
termination_by l.length
decreasing_by
  rename_i h
  have : 0 < l.length := List.length_pos.mpr h
  simp [List.length_drop]
  omega

/-- CBC-mode encryption of a block sequence under block cipher `E` with
initialisation vector `iv`. -/
def cbcEnc (E : List Nat → List Nat) (iv : List Nat) :
    List (List Nat) → List (List Nat)
  | [] => []
  | b :: bs =>
    let c := E (xorBytes iv b)
    c :: cbcEnc E c bs

/-- CBC-mode decryption under block cipher inverse `D`. -/
def cbcDec (D : List Nat → List Nat) (iv : List Nat) :
    List (List Nat) → List (List Nat)
  | [] => []
  | c :: cs => xorBytes iv (D c) :: cbcDec D c cs

/-- PKCS7 padding length for a message of `n` bytes (block size 16). -/
def padLen (n : Nat) : Nat := 16 - n % 16

/-- PKCS7: append `padLen` bytes each equal to `padLen`. -/
def pkcs7pad (msg : List Nat) : List Nat :=
  msg ++ List.replicate (padLen msg.length) (padLen msg.length)

/-- PKCS7 unpadding: the last byte gives the padding length; every padding
byte must equal it, else the padding is invalid. -/
def pkcs7unpad (data : List Nat) : Option (List Nat) :=
  match data.getLast? with
  | none => none
  | some p =>
    if 1 ≤ p ∧ p ≤ 16 ∧ p ≤ data.length ∧
        (data.drop (data.length - p)).all (fun x => x == p) then
      some (data.take (data.length - p))
    else none

/-- The base64url alphabet, sextet to ASCII code. -/
def b64EncChar (n : Nat) : Nat :=
  if n < 26 then 65 + n
  else if n < 52 then 71 + n
  else if n < 62 then n - 4
  else if n = 62 then 45
  else 95

/-- ASCII code back to sextet; `none` outside the base64url alphabet. -/
def b64DecChar (c : Nat) : Option Nat :=
  if 65 ≤ c ∧ c ≤ 90 then some (c - 65)
  else if 97 ≤ c ∧ c ≤ 122 then some (c - 71)
  else if 48 ≤ c ∧ c ≤ 57 then some (c + 4)
  else if c = 45 then some 62
  else if c = 95 then some 63
  else none

/-- urlsafe base64 encoding of a byte sequence (result = ASCII codes,
`61` is the pad character `'='`). -/
def b64encode : List Nat → List Nat
  | [] => []
  | [b0] => [b64EncChar (b0 / 4), b64EncChar (b0 % 4 * 16), 61, 61]
  | [b0, b1] =>
    [b64EncChar (b0 / 4), b64EncChar (b0 % 4 * 16 + b1 / 16),
     b64EncChar (b1 % 16 * 4), 61]
  | b0 :: b1 :: b2 :: rest =>
    b64EncChar (b0 / 4) :: b64EncChar (b0 % 4 * 16 + b1 / 16) ::
    b64EncChar (b1 % 16 * 4 + b2 / 64) :: b64EncChar (b2 % 64) :: b64encode rest

/-- urlsafe base64 decoding of a well-formed encoding. -/
def b64decode : List Nat → Option (List Nat)
  | [] => some []
  | c0 :: c1 :: c2 :: c3 :: rest =>
    match b64DecChar c0, b64DecChar c1 with
    | some d0, some d1 =>
      if c2 = 61 ∧ c3 = 61 ∧ rest = [] then
        some [d0 * 4 + d1 / 16]
      else if c3 = 61 ∧ rest = [] then
        match b64DecChar c2 with
        | some d2 => some [d0 * 4 + d1 / 16, d1 % 16 * 16 + d2 / 4]
        | none => none
      else
        match b64DecChar c2, b64DecChar c3 with
        | some d2, some d3 =>
          match b64decode rest with
          | some bs =>
            some ((d0 * 4 + d1 / 16) :: (d1 % 16 * 16 + d2 / 4) ::
                  (d2 % 4 * 64 + d3) :: bs)
          | none => none
        | _, _ => none
    | _, _ => none
  | _ => none

/-- `Fernet.encrypt` = `CryptoManager.encrypt` on UTF-8 bytes: pad, CBC
under `E` and `iv`, assemble `0x80 ‖ timestamp ‖ iv ‖ ciphertext`, append
the HMAC tag `H` of that prefix, base64url-encode. -/
def fernetEncrypt (E H : List Nat → List Nat) (timestamp iv msg : List Nat) :
    List Nat :=
  let ct := (cbcEnc E iv (toBlocks (pkcs7pad msg))).flatten
  let core := 128 :: (timestamp ++ iv ++ ct)
  b64encode (core ++ H core)

/-- `Fernet.decrypt` = `CryptoManager.decrypt`: base64url-decode, check the
minimum length and the `0x80` version byte, recompute and compare the HMAC
tag over everything but the final 32 bytes, extract `iv = data[9:25]` and
`ciphertext = data[25:-32]`, CBC-decrypt under `D`, unpad. -/
def fernetDecrypt (D H : List Nat → List Nat) (tok : List Nat) :
    Option (List Nat) :=
  match b64decode tok with
  | none => none
  | some data =>
    if data.length < 57 then none
    else if data.headD 0 ≠ 128 then none
    else if H (data.take (data.length - 32)) ≠ data.drop (data.length - 32) then none
    else
      let iv := (data.drop 9).take 16
      let ct := (data.drop 25).take (data.length - 57)
      if ct.length % 16 ≠ 0 then none
      else pkcs7unpad ((cbcDec D iv (toBlocks ct)).flatten)

/-!  Supporting lemmas about the dictionary model. -/

theorem dget_dput_self {β : Type} (l : Dict β) (k : String) (v : β) :
    dget (dput l k v) k = some v := by
  induction l with
  | nil => simp [dget, dput]
  | cons hd tl ih =>
    by_cases h : hd.1 = k
    · simp [dget, dput, h]
    · simp [dget, dput, h, ih]

theorem dget_dput_other {β : Type} (l : Dict β) (k k' : String) (v : β)
    (h : k' ≠ k) : dget (dput l k v) k' = dget l k' := by
  induction l with
  | nil => simp [dget, dput, Ne.symm h]
  | cons hd tl ih =>
    by_cases hh : hd.1 = k
    · subst hh
      simp [dget, dput, Ne.symm h]
    · by_cases hh2 : hd.1 = k'
      · simp [dget, dput, hh, hh2, h]
      · simp [dget, dput, hh, hh2, ih]

theorem dget_ddel_self {β : Type} (l : Dict β) (k : String) :
    dget (ddel l k) k = none := by
  induction l with
  | nil => simp [dget, ddel]
  | cons hd tl ih =>
    by_cases h : hd.1 = k
    · simp [ddel, h, ih]
    · simp [dget, ddel, h, ih]

theorem dget_ddel_other {β : Type} (l : Dict β) (k k' : String)
    (h : k' ≠ k) : dget (ddel l k) k' = dget l k' := by
  induction l with
  | nil => simp [ddel]
  | cons hd tl ih =>
    by_cases hh : hd.1 = k
    · subst hh
      simp [dget, ddel, Ne.symm h, ih]
    · simp [dget, ddel, hh, ih]

theorem dput_ne_nil {β : Type} (l : Dict β) (k : String) (v : β) :
    dput l k v ≠ [] := by
  cases l with
  | nil => simp [dput]
  | cons hd tl =>
    by_cases h : hd.1 = k <;> simp [dput, h]

theorem ddel_nil_dget_none {β : Type} (l : Dict β) (k k' : String)
    (h : ddel l k = []) (hk : k' ≠ k) : dget l k' = none := by
  induction l with
  | nil => rfl
  | cons hd tl ih =>
    by_cases hh : hd.1 = k
    · rw [ddel, if_pos hh] at h
      rw [dget, hh, if_neg (Ne.symm hk)]
      exact ih h
    · rw [ddel, if_neg hh] at h
      exact absurd h (by simp)

/-- Reading the key just written by `set`. -/
theorem CookieCache.get_set_self (c : CookieCache) (p k : String)
    (ck : Cookies) (now : Nat) : (c.set p k ck now).get p k = some ck := by
  unfold CookieCache.set CookieCache.get
  rw [dget_dput_self]
  have hne : dput ((dget c.cache p).getD []) k (⟨ck, now, none, 0⟩ : CachedCookie) ≠ [] :=
    dput_ne_nil _ _ _
  simp only [List.isEmpty_eq_true, hne, if_false, dget_dput_self]

/-- Reading another key after `set`. -/
theorem CookieCache.get_set_other (c : CookieCache) (p k p' k' : String)
    (ck : Cookies) (now : Nat) (h : p' ≠ p ∨ (p' = p ∧ k' ≠ k)) :
    (c.set p k ck now).get p' k' = c.get p' k' := by
  unfold CookieCache.set CookieCache.get
  rcases h with h | ⟨hp, hk⟩
  · rw [dget_dput_other _ _ _ _ h]
  · subst hp
    rw [dget_dput_self]
    have hne : dput ((dget c.cache p').getD []) k (⟨ck, now, none, 0⟩ : CachedCookie) ≠ [] :=
      dput_ne_nil _ _ _
    simp only [List.isEmpty_eq_true, hne, if_false, dget_dput_other _ _ _ _ hk]
    cases hpc : dget c.cache p' with
    | none => simp [dget]
    | some pc =>
      by_cases hemp : pc = []
      · subst hemp
        simp [dget]
      · simp [hemp]

/-- The entry after `mark_validated` on a present entry. -/
theorem CookieCache.get_cached_entry_mark_validated (c : CookieCache)
    (p k : String) (now : Nat) (e : CachedCookie)
    (h : c.get_cached_entry p k = some e) :
    (c.mark_validated p k now).get_cached_entry p k = some (e.mark_validated now) := by
  unfold CookieCache.mark_validated
  rw [h]
  unfold CookieCache.get_cached_entry
  rw [dget_dput_self]
  have hne : dput ((dget c.cache p).getD []) k (e.mark_validated now) ≠ [] :=
    dput_ne_nil _ _ _
  simp only [List.isEmpty_eq_true, hne, if_false, dget_dput_self]

/-- Claim C7: invalidating an absent entry returns false and leaves the cache
unchanged; invalidating a present entry returns true, a subsequent `get` of
that pair misses, and every other pair is untouched. -/
theorem invalidate_absent_false_present_removes (c : CookieCache) (p k : String) :
    (c.get_cached_entry p k = none → c.invalidate p k = (false, c)) ∧
    (∀ e, c.get_cached_entry p k = some e →
      (c.invalidate p k).1 = true ∧
      ((c.invalidate p k).2).get p k = none ∧
      (∀ p' k', p' ≠ p ∨ (p' = p ∧ k' ≠ k) →
        ((c.invalidate p k).2).get_cached_entry p' k' = c.get_cached_entry p' k')) := by
  cases hpc : dget c.cache p with
  | none =>
    have hinv : c.invalidate p k = (false, c) := by
      unfold CookieCache.invalidate
      rw [hpc]
    have hent : c.get_cached_entry p k = none := by
      unfold CookieCache.get_cached_entry
      rw [hpc]
    refine ⟨fun _ => hinv, fun e he => ?_⟩
    rw [hent] at he
    exact absurd he (by simp)
  | some pc =>
    by_cases hemp : pc.isEmpty = true
    · have hinv : c.invalidate p k = (false, c) := by
        unfold CookieCache.invalidate
        rw [hpc]
        dsimp only
        rw [if_pos hemp]
      have hent : c.get_cached_entry p k = none := by
        unfold CookieCache.get_cached_entry
        rw [hpc]
        dsimp only
        rw [if_pos hemp]
      refine ⟨fun _ => hinv, fun e he => ?_⟩
      rw [hent] at he
      exact absurd he (by simp)
    · cases hk : dget pc k with
      | none =>
        have hinv : c.invalidate p k = (false, c) := by
          unfold CookieCache.invalidate
          rw [hpc]
          dsimp only
          rw [if_neg hemp, hk]
        have hent : c.get_cached_entry p k = none := by
          unfold CookieCache.get_cached_entry
          rw [hpc]
          dsimp only
          rw [if_neg hemp, hk]
        refine ⟨fun _ => hinv, fun e he => ?_⟩
        rw [hent] at he
        exact absurd he (by simp)
      | some e0 =>
        have hinv : c.invalidate p k =
            (true, ⟨dput c.cache p (ddel pc k)⟩) := by
          unfold CookieCache.invalidate
          rw [hpc]
          dsimp only
          rw [if_neg hemp, hk]
        refine ⟨fun hno => ?_, fun e _ => ⟨by rw [hinv], ?_, ?_⟩⟩
        · have hent : c.get_cached_entry p k = some e0 := by
            unfold CookieCache.get_cached_entry
            rw [hpc]
            dsimp only
            rw [if_neg hemp, hk]
          rw [hent] at hno
          exact absurd hno (by simp)
        · rw [hinv]
          unfold CookieCache.get
          dsimp only
          rw [dget_dput_self]
          dsimp only
          by_cases hde : (ddel pc k).isEmpty = true
          · rw [if_pos hde]
          · rw [if_neg hde, dget_ddel_self]
        · intro p' k' h
          rw [hinv]
          unfold CookieCache.get_cached_entry
          dsimp only
          rcases h with h | ⟨hp, hk'⟩
          · rw [dget_dput_other _ _ _ _ h]
          · subst hp
            rw [dget_dput_self, hpc]
            dsimp only
            rw [if_neg hemp]
            by_cases hde : (ddel pc k).isEmpty = true
            · rw [if_pos hde]
              rw [List.isEmpty_eq_true] at hde
              rw [ddel_nil_dget_none pc k k' hde hk']
            · rw [if_neg hde, dget_ddel_other _ _ _ hk']

/-- Claim C8: `invalidate_provider p` returns the number of entries under
`p` (0 when it has none), removes every entry under `p`, and leaves every
entry of every other provider unchanged. -/
theorem invalidate_provider_exact (c : CookieCache) (p : String) :
    (c.invalidate_provider p).1 = ((dget c.cache p).getD []).length ∧
    (∀ k, ((c.invalidate_provider p).2).get_cached_entry p k = none) ∧
    (∀ p' k, p' ≠ p →
      ((c.invalidate_provider p).2).get_cached_entry p' k = c.get_cached_entry p' k ∧
      ((c.invalidate_provider p).2).get p' k = c.get p' k) := by
  cases hpc : dget c.cache p with
  | none =>
    have hinv : c.invalidate_provider p = (0, c) := by
      unfold CookieCache.invalidate_provider
      rw [hpc]
    refine ⟨by rw [hinv]; rfl, fun k => ?_, fun p' k h => ⟨by rw [hinv], by rw [hinv]⟩⟩
    rw [hinv]
    unfold CookieCache.get_cached_entry
    rw [hpc]
  | some pc =>
    have hinv : c.invalidate_provider p = (pc.length, ⟨ddel c.cache p⟩) := by
      unfold CookieCache.invalidate_provider
      rw [hpc]
    refine ⟨by rw [hinv]; rfl, fun k => ?_, fun p' k h => ⟨?_, ?_⟩⟩
    · rw [hinv]
      unfold CookieCache.get_cached_entry
      dsimp only
      rw [dget_ddel_self]
    · rw [hinv]
      unfold CookieCache.get_cached_entry
      dsimp only
      rw [dget_ddel_other _ _ _ h]
    · rw [hinv]
      unfold CookieCache.get
      dsimp only
      rw [dget_ddel_other _ _ _ h]

/-- Witness for the C7 theorem at a concrete one-entry cache. -/
theorem invalidate_absent_false_present_removes_witness :
    (CookieCache.invalidate ⟨[("p", [("k", ⟨[("x", "1")], 0, none, 0⟩)])]⟩ "p" "z" =
      (false, ⟨[("p", [("k", ⟨[("x", "1")], 0, none, 0⟩)])]⟩)) ∧
    (CookieCache.invalidate ⟨[("p", [("k", ⟨[("x", "1")], 0, none, 0⟩)])]⟩ "p" "k").1 = true ∧
    ((CookieCache.invalidate
        ⟨[("p", [("k", ⟨[("x", "1")], 0, none, 0⟩)])]⟩ "p" "k").2).get "p" "k" = none := by
  refine ⟨?_, ?_, ?_⟩
  · exact (invalidate_absent_false_present_removes _ "p" "z").1 (by decide)
  · exact ((invalidate_absent_false_present_removes _ "p" "k").2
      ⟨[("x", "1")], 0, none, 0⟩ (by decide)).1
  · exact ((invalidate_absent_false_present_removes _ "p" "k").2
      ⟨[("x", "1")], 0, none, 0⟩ (by decide)).2.1

/-- Witness for the C8 theorem at a concrete two-provider cache. -/
theorem invalidate_provider_exact_witness :
    ("p2" : String) ≠ "p1" ∧
    (CookieCache.invalidate_provider
      ⟨[("p1", [("a", ⟨[], 0, none, 0⟩), ("b", ⟨[], 0, none, 0⟩)]),
        ("p2", [("a", ⟨[("y", "2")], 0, none, 0⟩)])]⟩ "p1").1 = 2 ∧
    ((CookieCache.invalidate_provider
      ⟨[("p1", [("a", ⟨[], 0, none, 0⟩), ("b", ⟨[], 0, none, 0⟩)]),
        ("p2", [("a", ⟨[("y", "2")], 0, none, 0⟩)])]⟩ "p1").2).get "p2" "a" =
    (⟨[("p1", [("a", ⟨[], 0, none, 0⟩), ("b", ⟨[], 0, none, 0⟩)]),
        ("p2", [("a", ⟨[("y", "2")], 0, none, 0⟩)])]⟩ : CookieCache).get "p2" "a" := by
  refine ⟨by decide, ?_, ?_⟩
  · exact (invalidate_provider_exact _ "p1").1.trans (by decide)
  · exact ((invalidate_provider_exact _ "p1").2.2 "p2" "a" (by decide)).2

/-- Claim C2: with a non-empty cached entry that validation reports invalid,
`get_cookie` removes that cache entry, performs exactly one login, stores the
fresh cookie set afterwards, and returns it. -/
theorem get_cookie_invalid_cached_relogin (engine : Engine)
    (store : String → Option Provider) (cache : CookieCache) (now : Nat)
    (pid key : String) (provider : Provider) (field : Field) (c fresh : Cookies)
    (hstore : store pid = some provider)
    (hfield : findField provider.fields key = some field)
    (hu : field.username ≠ "") (hp : field.password ≠ "")
    (hc : cache.get pid key = some c) (hne : c ≠ [])
    (hval : engine.validate provider c = .ok false)
    (hlogin : engine.login provider field.username field.password = .ok fresh) :
    get_cookie engine store cache now pid key =
      ⟨.ok fresh, ((cache.invalidate pid key).2).set pid key fresh now, 1, 1⟩ ∧
    (get_cookie engine store cache now pid key).cache.get pid key = some fresh := by
  have hgc : get_cookie engine store cache now pid key =
      ⟨.ok fresh, ((cache.invalidate pid key).2).set pid key fresh now, 1, 1⟩ := by
    unfold get_cookie
    rw [hstore]
    dsimp only
    rw [hfield]
    dsimp only
    rw [if_neg (by simp [hu, hp]), hc]
    dsimp only
    have hcne : ¬(c.isEmpty = true) := by
      rw [List.isEmpty_eq_true]
      exact hne
    rw [if_neg hcne, hval]
    dsimp only
    unfold doLogin
    rw [hlogin]
  exact ⟨hgc, by rw [hgc]; exact CookieCache.get_set_self _ _ _ _ _⟩

/-- Claim C3: with a non-empty cached entry that validation reports valid,
`get_cookie` performs no login, marks the entry validated (stamping the time
and bumping the counter), and returns the cached cookies. -/
theorem get_cookie_valid_cached_no_login (engine : Engine)
    (store : String → Option Provider) (cache : CookieCache) (now : Nat)
    (pid key : String) (provider : Provider) (field : Field) (c : Cookies)
    (hstore : store pid = some provider)
    (hfield : findField provider.fields key = some field)
    (hu : field.username ≠ "") (hp : field.password ≠ "")
    (hc : cache.get pid key = some c) (hne : c ≠ [])
    (hval : engine.validate provider c = .ok true) :
    get_cookie engine store cache now pid key =
      ⟨.ok c, cache.mark_validated pid key now, 0, 1⟩ ∧
    (∀ e, cache.get_cached_entry pid key = some e →
      (get_cookie engine store cache now pid key).cache.get_cached_entry pid key =
        some ⟨e.cookies, e.created_at, some now, e.validation_count + 1⟩) := by
  have hgc : get_cookie engine store cache now pid key =
      ⟨.ok c, cache.mark_validated pid key now, 0, 1⟩ := by
    unfold get_cookie
    rw [hstore]
    dsimp only
    rw [hfield]
    dsimp only
    rw [if_neg (by simp [hu, hp]), hc]
    dsimp only
    have hcne : ¬(c.isEmpty = true) := by
      rw [List.isEmpty_eq_true]
      exact hne
    rw [if_neg hcne, hval]
  refine ⟨hgc, fun e he => ?_⟩
  rw [hgc]
  exact CookieCache.get_cached_entry_mark_validated cache pid key now e he

/-- Claim C4: when the provider is absent from the vault, `get_cookie` raises
`AuthenticationError` saying the provider does not exist and returns with the
cache unchanged and no login or validation performed. -/
theorem get_cookie_unknown_provider (engine : Engine)
    (db : String → Option ProviderRow) (decrypt : String → Except String String)
    (cache : CookieCache) (now : Nat) (pid key : String)
    (hdb : db pid = none) :
    get_cookie engine (get_provider_with_credentials db decrypt) cache now pid key =
      ⟨.error ("SSO 平台 '" ++ pid ++ "' 不存在"), cache, 0, 0⟩ := by
  unfold get_cookie get_provider_with_credentials
  rw [hdb]

/-- Claim C10: a cached entry holding an empty cookie mapping is treated as a
cache miss: no validation happens, the entry is neither marked validated nor
invalidated, and a fresh login is performed and stored over the original
cache. -/
theorem get_cookie_empty_cached_is_miss (engine : Engine)
    (store : String → Option Provider) (cache : CookieCache) (now : Nat)
    (pid key : String) (provider : Provider) (field : Field) (fresh : Cookies)
    (hstore : store pid = some provider)
    (hfield : findField provider.fields key = some field)
    (hu : field.username ≠ "") (hp : field.password ≠ "")
    (hc : cache.get pid key = some [])
    (hlogin : engine.login provider field.username field.password = .ok fresh) :
    get_cookie engine store cache now pid key =
      ⟨.ok fresh, cache.set pid key fresh now, 1, 0⟩ := by
  unfold get_cookie
  rw [hstore]
  dsimp only
  rw [hfield]
  dsimp only
  rw [if_neg (by simp [hu, hp]), hc]
  dsimp only
  rw [if_pos (by rfl)]
  unfold doLogin
  rw [hlogin]

/-- Witness for the C2 theorem at a concrete engine, store and cache. -/
theorem get_cookie_invalid_cached_relogin_witness :
    get_cookie ⟨fun _ _ => .ok false, fun _ _ _ => .ok [("s2", "v")]⟩
        (fun _ => some ⟨"p", "https://l", "https://v", "ind", [⟨"k", "u", "pw"⟩]⟩)
        ⟨[("p", [("k", ⟨[("old", "1")], 0, none, 0⟩)])]⟩ 7 "p" "k" =
      ⟨.ok [("s2", "v")],
        ((CookieCache.invalidate ⟨[("p", [("k", ⟨[("old", "1")], 0, none, 0⟩)])]⟩
            "p" "k").2).set "p" "k" [("s2", "v")] 7, 1, 1⟩ ∧
    (get_cookie ⟨fun _ _ => .ok false, fun _ _ _ => .ok [("s2", "v")]⟩
        (fun _ => some ⟨"p", "https://l", "https://v", "ind", [⟨"k", "u", "pw"⟩]⟩)
        ⟨[("p", [("k", ⟨[("old", "1")], 0, none, 0⟩)])]⟩ 7 "p" "k").cache.get "p" "k" =
      some [("s2", "v")] :=
  get_cookie_invalid_cached_relogin
    ⟨fun _ _ => .ok false, fun _ _ _ => .ok [("s2", "v")]⟩
    (fun _ => some ⟨"p", "https://l", "https://v", "ind", [⟨"k", "u", "pw"⟩]⟩)
    ⟨[("p", [("k", ⟨[("old", "1")], 0, none, 0⟩)])]⟩ 7 "p" "k"
    ⟨"p", "https://l", "https://v", "ind", [⟨"k", "u", "pw"⟩]⟩
    ⟨"k", "u", "pw"⟩ [("old", "1")] [("s2", "v")]
    rfl rfl (by decide) (by decide) rfl (by decide) rfl rfl

/-- Witness for the C3 theorem at a concrete engine, store and cache. -/
theorem get_cookie_valid_cached_no_login_witness :
    get_cookie ⟨fun _ _ => .ok true, fun _ _ _ => .ok [("s2", "v")]⟩
        (fun _ => some ⟨"p", "https://l", "https://v", "ind", [⟨"k", "u", "pw"⟩]⟩)
        ⟨[("p", [("k", ⟨[("old", "1")], 3, none, 4⟩)])]⟩ 7 "p" "k" =
      ⟨.ok [("old", "1")],
        CookieCache.mark_validated ⟨[("p", [("k", ⟨[("old", "1")], 3, none, 4⟩)])]⟩
          "p" "k" 7, 0, 1⟩ ∧
    (get_cookie ⟨fun _ _ => .ok true, fun _ _ _ => .ok [("s2", "v")]⟩
        (fun _ => some ⟨"p", "https://l", "https://v", "ind", [⟨"k", "u", "pw"⟩]⟩)
        ⟨[("p", [("k", ⟨[("old", "1")], 3, none, 4⟩)])]⟩ 7 "p" "k").cache.get_cached_entry
      "p" "k" = some ⟨[("old", "1")], 3, some 7, 5⟩ := by
  have h := get_cookie_valid_cached_no_login
    ⟨fun _ _ => .ok true, fun _ _ _ => .ok [("s2", "v")]⟩
    (fun _ => some ⟨"p", "https://l", "https://v", "ind", [⟨"k", "u", "pw"⟩]⟩)
    ⟨[("p", [("k", ⟨[("old", "1")], 3, none, 4⟩)])]⟩ 7 "p" "k"
    ⟨"p", "https://l", "https://v", "ind", [⟨"k", "u", "pw"⟩]⟩
    ⟨"k", "u", "pw"⟩ [("old", "1")]
    rfl rfl (by decide) (by decide) rfl (by decide) rfl
  exact ⟨h.1, h.2 ⟨[("old", "1")], 3, none, 4⟩ rfl⟩

/-- Witness for the C4 theorem at a concrete empty vault. -/
theorem get_cookie_unknown_provider_witness :
    get_cookie ⟨fun _ _ => .ok true, fun _ _ _ => .ok []⟩
        (get_provider_with_credentials (fun _ => none) (fun s => .ok s))
        ⟨[]⟩ 0 "unknown" "x" =
      ⟨.error ("SSO 平台 '" ++ "unknown" ++ "' 不存在"), ⟨[]⟩, 0, 0⟩ :=
  get_cookie_unknown_provider ⟨fun _ _ => .ok true, fun _ _ _ => .ok []⟩
    (fun _ => none) (fun s => .ok s) ⟨[]⟩ 0 "unknown" "x" rfl

/-- Witness for the C10 theorem at a concrete cache holding an empty cookie
mapping. -/
theorem get_cookie_empty_cached_is_miss_witness :
    get_cookie ⟨fun _ _ => .ok true, fun _ _ _ => .ok [("s2", "v")]⟩
        (fun _ => some ⟨"p", "https://l", "https://v", "ind", [⟨"k", "u", "pw"⟩]⟩)
        ⟨[("p", [("k", ⟨[], 0, none, 0⟩)])]⟩ 7 "p" "k" =
      ⟨.ok [("s2", "v")],
        CookieCache.set ⟨[("p", [("k", ⟨[], 0, none, 0⟩)])]⟩ "p" "k" [("s2", "v")] 7,
        1, 0⟩ :=
  get_cookie_empty_cached_is_miss
    ⟨fun _ _ => .ok true, fun _ _ _ => .ok [("s2", "v")]⟩
    (fun _ => some ⟨"p", "https://l", "https://v", "ind", [⟨"k", "u", "pw"⟩]⟩)
    ⟨[("p", [("k", ⟨[], 0, none, 0⟩)])]⟩ 7 "p" "k"
    ⟨"p", "https://l", "https://v", "ind", [⟨"k", "u", "pw"⟩]⟩
    ⟨"k", "u", "pw"⟩ [("s2", "v")]
    rfl rfl (by decide) (by decide) rfl rfl

/-- `find?` over the decrypted field list agrees with `find?` over the rows,
since decryption preserves the key. -/
theorem findField_map_decrypt (decrypt : String → Except String String)
    (rows : List FieldRow) (key : String) :
    findField (rows.map (decryptFieldRow decrypt)) key =
      (rows.find? (fun r => r.key == key)).map (decryptFieldRow decrypt) := by
  induction rows with
  | nil => rfl
  | cons r rs ih =>
    have hkey : (decryptFieldRow decrypt r).key = r.key := rfl
    by_cases h : (r.key == key) = true
    · simp [findField, List.find?, hkey, h]
    · simp only [List.map_cons, findField, List.find?, hkey, h]
      exact ih

/-- A stored password whose decryption raises is kept verbatim. -/
theorem decryptFieldRow_error (decrypt : String → Except String String)
    (f : FieldRow) (e : String) (hpw : f.password ≠ "")
    (hdec : decrypt f.password = .error e) :
    decryptFieldRow decrypt f = ⟨f.key, f.username, f.password⟩ := by
  unfold decryptFieldRow
  rw [if_neg hpw, hdec]

/-- Counterexample to claim C1: the stored password "CIPHER" fails to
decrypt, yet `get_cookie` does not raise an `AuthenticationError` about
missing/unusable credentials — it performs one login (using the ciphertext
as the password) and returns its cookies. -/
theorem get_cookie_decrypt_failure_counterexample :
    (fun _ : String => (.error "InvalidToken" : Except String String)) "CIPHER" =
      .error "InvalidToken" ∧
    get_cookie ⟨fun _ _ => .ok true, fun _ _ _ => .ok [("sid", "1")]⟩
      (get_provider_with_credentials
        (fun p => if p = "p1" then
            some ⟨"p1", "https://l", "", "", [⟨"k", "u", "CIPHER"⟩]⟩ else none)
        (fun _ => .error "InvalidToken"))
      ⟨[]⟩ 0 "p1" "k" =
      ⟨.ok [("sid", "1")], CookieCache.set ⟨[]⟩ "p1" "k" [("sid", "1")] 0, 1, 0⟩ :=
  ⟨rfl, rfl⟩

/-- Claim C1 (amended): when decrypting a field's stored secret fails, the
provider read still succeeds and the stored ciphertext is kept as that
field's password; `get_cookie` does not fail over the decryption failure —
with a non-empty username and stored value and no cached cookies it performs
one login, passing the ciphertext as the password. -/
theorem get_cookie_decrypt_failure_falls_back_to_ciphertext (engine : Engine)
    (db : String → Option ProviderRow) (decrypt : String → Except String String)
    (cache : CookieCache) (now : Nat) (pid key : String)
    (pr : ProviderRow) (f : FieldRow) (e : String) (fresh : Cookies)
    (hdb : db pid = some pr)
    (hf : pr.fields.find? (fun r => r.key == key) = some f)
    (hpw : f.password ≠ "") (hu : f.username ≠ "")
    (hdec : decrypt f.password = .error e)
    (hmiss : cache.get pid key = none)
    (hlogin : engine.login (rowToProvider decrypt pr) f.username f.password = .ok fresh) :
    get_provider_with_credentials db decrypt pid = some (rowToProvider decrypt pr) ∧
    findField (rowToProvider decrypt pr).fields key =
      some ⟨f.key, f.username, f.password⟩ ∧
    get_cookie engine (get_provider_with_credentials db decrypt) cache now pid key =
      ⟨.ok fresh, cache.set pid key fresh now, 1, 0⟩ := by
  have h1 : get_provider_with_credentials db decrypt pid =
      some (rowToProvider decrypt pr) := by
    unfold get_provider_with_credentials
    rw [hdb]
  have h2 : findField (rowToProvider decrypt pr).fields key =
      some ⟨f.key, f.username, f.password⟩ := by
    unfold rowToProvider
    rw [findField_map_decrypt, hf]
    simp only [Option.map_some']
    rw [decryptFieldRow_error decrypt f e hpw hdec]
  refine ⟨h1, h2, ?_⟩
  unfold get_cookie
  rw [h1]
  dsimp only
  rw [h2]
  dsimp only
  rw [if_neg (by simp [hu, hpw]), hmiss]
  dsimp only
  unfold doLogin
  dsimp only
  rw [hlogin]

/-- Witness for the amended C1 theorem at a concrete vault and engine. -/
theorem get_cookie_decrypt_failure_falls_back_to_ciphertext_witness :
    get_provider_with_credentials
        (fun _ => some ⟨"p1", "https://l", "", "", [⟨"k", "u", "CIPHER"⟩]⟩)
        (fun _ => .error "InvalidToken") "p1" =
      some (rowToProvider (fun _ => .error "InvalidToken")
        ⟨"p1", "https://l", "", "", [⟨"k", "u", "CIPHER"⟩]⟩) ∧
    findField (rowToProvider (fun _ => .error "InvalidToken")
        ⟨"p1", "https://l", "", "", [⟨"k", "u", "CIPHER"⟩]⟩).fields "k" =
      some ⟨"k", "u", "CIPHER"⟩ ∧
    get_cookie ⟨fun _ _ => .ok true, fun _ _ _ => .ok [("sid", "1")]⟩
      (get_provider_with_credentials
        (fun _ => some ⟨"p1", "https://l", "", "", [⟨"k", "u", "CIPHER"⟩]⟩)
        (fun _ => .error "InvalidToken"))
      ⟨[]⟩ 0 "p1" "k" =
      ⟨.ok [("sid", "1")], CookieCache.set ⟨[]⟩ "p1" "k" [("sid", "1")] 0, 1, 0⟩ :=
  get_cookie_decrypt_failure_falls_back_to_ciphertext
    ⟨fun _ _ => .ok true, fun _ _ _ => .ok [("sid", "1")]⟩
    (fun _ => some ⟨"p1", "https://l", "", "", [⟨"k", "u", "CIPHER"⟩]⟩)
    (fun _ => .error "InvalidToken") ⟨[]⟩ 0 "p1" "k"
    ⟨"p1", "https://l", "", "", [⟨"k", "u", "CIPHER"⟩]⟩
    ⟨"k", "u", "CIPHER"⟩ "InvalidToken" [("sid", "1")]
    rfl rfl (by decide) (by decide) rfl rfl rfl

/-- Counterexample to claim C5: an exception raised while starting the
browser — inside `validate_cookies` but before its `try` block — propagates
to the caller instead of being converted to "invalid". -/
theorem validate_cookies_setup_exception_counterexample :
    validate_cookies
      ⟨.error "browser launch failed", .ok (), .ok (), .ok (), .ok (), .ok true⟩
      (.ok ()) ⟨"p", "https://l", "https://v", "", []⟩ [] =
      .error "browser launch failed" :=
  rfl

/-- Claim C5 (amended): provided browser/context setup and the final context
close succeed, `validate_cookies` never raises; any exception inside the
validation attempt yields the boolean "invalid", and "valid" is only
returned when no step of the attempt raised (and the configured invalidity
indicator, if any, was found absent). -/
theorem validate_cookies_fail_closed (env : ValidateEnv) (close : Except String Unit)
    (provider : Provider) (cookies : Cookies)
    (hb : env.ensure_browser = .ok ()) (hc : env.new_context = .ok ())
    (hcl : close = .ok ()) :
    (∃ b, validate_cookies env close provider cookies = .ok b) ∧
    (validate_cookies env close provider cookies = .ok true →
      provider.validate_url = "" ∨
      (env.add_cookies = .ok () ∧ env.new_page = .ok () ∧ env.goto = .ok () ∧
        (provider.invalid_indicator ≠ "" → env.check_invalid_indicator = .ok false))) := by
  unfold validate_cookies
  rw [hb, hc, hcl]
  by_cases hv : provider.validate_url = ""
  · rw [if_pos hv]
    exact ⟨⟨true, rfl⟩, fun _ => Or.inl hv⟩
  · rw [if_neg hv]
    dsimp only
    cases ha : env.add_cookies with
    | error e => exact ⟨⟨false, rfl⟩, fun hcontra => by simp at hcontra⟩
    | ok u =>
      cases u
      cases hn : env.new_page with
      | error e => exact ⟨⟨false, rfl⟩, fun hcontra => by simp at hcontra⟩
      | ok u =>
        cases u
        cases hg : env.goto with
        | error e => exact ⟨⟨false, rfl⟩, fun hcontra => by simp at hcontra⟩
        | ok u =>
          cases u
          by_cases hi : provider.invalid_indicator = ""
          · rw [if_pos hi]
            exact ⟨⟨true, rfl⟩, fun _ => Or.inr ⟨rfl, rfl, rfl, fun hh => absurd hi hh⟩⟩
          · rw [if_neg hi]
            cases hci : env.check_invalid_indicator with
            | error e => exact ⟨⟨false, rfl⟩, fun hcontra => by simp at hcontra⟩
            | ok b =>
              cases b with
              | true => exact ⟨⟨false, rfl⟩, fun hcontra => by simp at hcontra⟩
              | false => exact ⟨⟨true, rfl⟩, fun _ => Or.inr ⟨rfl, rfl, rfl, fun _ => rfl⟩⟩

/-- Witness for the amended C5 theorem: navigation raises, the result is the
boolean "invalid". -/
theorem validate_cookies_fail_closed_witness :
    (∃ b, validate_cookies ⟨.ok (), .ok (), .ok (), .ok (), .error "timeout", .ok true⟩
        (.ok ()) ⟨"p", "https://l", "https://v", "", []⟩ [] = .ok b) ∧
    (validate_cookies ⟨.ok (), .ok (), .ok (), .ok (), .error "timeout", .ok true⟩
        (.ok ()) ⟨"p", "https://l", "https://v", "", []⟩ [] = .ok true →
      (⟨"p", "https://l", "https://v", "", []⟩ : Provider).validate_url = "" ∨
      ((⟨.ok (), .ok (), .ok (), .ok (), .error "timeout", .ok true⟩ :
          ValidateEnv).add_cookies = .ok () ∧
        (⟨.ok (), .ok (), .ok (), .ok (), .error "timeout", .ok true⟩ :
          ValidateEnv).new_page = .ok () ∧
        (⟨.ok (), .ok (), .ok (), .ok (), .error "timeout", .ok true⟩ :
          ValidateEnv).goto = .ok () ∧
        ((⟨"p", "https://l", "https://v", "", []⟩ : Provider).invalid_indicator ≠ "" →
          (⟨.ok (), .ok (), .ok (), .ok (), .error "timeout", .ok true⟩ :
            ValidateEnv).check_invalid_indicator = .ok false))) :=
  validate_cookies_fail_closed ⟨.ok (), .ok (), .ok (), .ok (), .error "timeout", .ok true⟩
    (.ok ()) ⟨"p", "https://l", "https://v", "", []⟩ [] rfl rfl rfl

/-- Reading the cell just allocated. -/
theorem RefHeap.read_alloc_self (h : RefHeap) (d : Cookies) :
    (h.alloc d).1.read h.size = d := by
  unfold RefHeap.alloc RefHeap.read RefHeap.size
  dsimp only
  rw [List.getD_append_right _ _ _ _ (le_refl _)]
  simp

/-- Allocation does not disturb existing cells. -/
theorem RefHeap.read_alloc_lt (h : RefHeap) (d : Cookies) (a : Nat)
    (ha : a < h.size) : (h.alloc d).1.read a = h.read a := by
  unfold RefHeap.size at ha
  unfold RefHeap.alloc RefHeap.read
  dsimp only
  rw [List.getD_append _ _ _ _ ha]

/-- `getD` after `set` at a different index. -/
theorem list_getD_set_ne {α : Type} (l : List α) (d d0 : α) :
    ∀ a b : Nat, b ≠ a → (l.set a d).getD b d0 = l.getD b d0 := by
  induction l with
  | nil => intro a b _; rfl
  | cons x xs ih =>
    intro a b hab
    cases a with
    | zero =>
      cases b with
      | zero => exact absurd rfl hab
      | succ b => rfl
    | succ a =>
      cases b with
      | zero => rfl
      | succ b => exact ih a b (fun hh => hab (by rw [hh]))

/-- Writing one cell does not disturb another. -/
theorem RefHeap.read_write_ne (h : RefHeap) (a b : Nat) (d : Cookies)
    (hab : b ≠ a) : (h.write a d).read b = h.read b := by
  unfold RefHeap.write RefHeap.read
  exact list_getD_set_ne h.cells d [] a b hab

/-- The allocated address is the old size. -/
theorem RefHeap.alloc_snd (h : RefHeap) (d : Cookies) : (h.alloc d).2 = h.size := rfl

/-- Allocation grows the heap by one cell. -/
theorem RefHeap.size_alloc (h : RefHeap) (d : Cookies) :
    (h.alloc d).1.size = h.size + 1 := by
  unfold RefHeap.alloc RefHeap.size
  simp

/-- Writing preserves the heap size. -/
theorem RefHeap.size_write (h : RefHeap) (a : Nat) (d : Cookies) :
    (h.write a d).size = h.size := by
  unfold RefHeap.write RefHeap.size
  simp

/-- After `set`, a `get` of the same pair on any heap returns a freshly
allocated copy of the entry's cell, which sits at address `h.size`. -/
theorem CookieCacheRef.get_after_set (h : RefHeap) (c : CookieCacheRef)
    (pid k : String) (a now : Nat) (hh : RefHeap) :
    CookieCacheRef.get hh (CookieCacheRef.set h c pid k a now).2 pid k =
      ((hh.alloc (hh.read h.size)).1, some (hh.alloc (hh.read h.size)).2) := by
  unfold CookieCacheRef.set CookieCacheRef.get
  dsimp only
  rw [dget_dput_self]
  dsimp only
  have hne : ¬(List.isEmpty (dput ((dget c.cache pid).getD []) k
      ⟨(h.alloc (h.read a)).2, now, none, 0⟩) = true) := by
    rw [List.isEmpty_eq_true]
    exact dput_ne_nil _ _ _
  rw [if_neg hne, dget_dput_self]
  rfl

/-- Claim C6: after `set`, `get` returns a mapping equal to the one passed to
`set` but backed by a distinct object: mutating the returned copy or the
mapping originally passed to `set` does not change what later `get`s
return. -/
theorem cache_set_get_defensive_copy (h : RefHeap) (c : CookieCacheRef)
    (pid k : String) (a now : Nat) (d' : Cookies) (ha : a < h.size) :
    ∃ g1 a2,
      CookieCacheRef.get (CookieCacheRef.set h c pid k a now).1
        (CookieCacheRef.set h c pid k a now).2 pid k = (g1, some a2) ∧
      g1.read a2 = h.read a ∧
      a2 ≠ a ∧
      (∀ a3, a3 = a2 ∨ a3 = a →
        ∃ g2 a4,
          CookieCacheRef.get (g1.write a3 d')
            (CookieCacheRef.set h c pid k a now).2 pid k = (g2, some a4) ∧
          g2.read a4 = h.read a) := by
  have hs1 : (CookieCacheRef.set h c pid k a now).1 = (h.alloc (h.read a)).1 := rfl
  have hread1 : (h.alloc (h.read a)).1.read h.size = h.read a :=
    RefHeap.read_alloc_self h (h.read a)
  have hget := CookieCacheRef.get_after_set h c pid k a now (h.alloc (h.read a)).1
  rw [hread1] at hget
  refine ⟨((h.alloc (h.read a)).1.alloc (h.read a)).1,
          ((h.alloc (h.read a)).1.alloc (h.read a)).2, by rw [hs1]; exact hget,
          ?_, ?_, ?_⟩
  · rw [RefHeap.alloc_snd]
    exact RefHeap.read_alloc_self _ _
  · rw [RefHeap.alloc_snd, RefHeap.size_alloc]
    omega
  · intro a3 ha3
    have ha3ne : a3 ≠ h.size := by
      rcases ha3 with ha3 | ha3
      · rw [ha3, RefHeap.alloc_snd, RefHeap.size_alloc]
        omega
      · omega
    have hget2 := CookieCacheRef.get_after_set h c pid k a now
      ((((h.alloc (h.read a)).1.alloc (h.read a)).1).write a3 d')
    have hr2 : ((((h.alloc (h.read a)).1.alloc (h.read a)).1).write a3 d').read h.size =
        h.read a := by
      rw [RefHeap.read_write_ne _ _ _ _ (Ne.symm ha3ne)]
      rw [RefHeap.read_alloc_lt _ _ _ (by rw [RefHeap.size_alloc]; omega)]
      exact hread1
    rw [hr2] at hget2
    exact ⟨_, _, hget2, by rw [RefHeap.alloc_snd]; exact RefHeap.read_alloc_self _ _⟩

/-- Witness for the C6 theorem at a concrete one-cell heap. -/
theorem cache_set_get_defensive_copy_witness :
    0 < RefHeap.size ⟨[[("x", "1")]]⟩ ∧
    (∃ g1 a2,
      CookieCacheRef.get (CookieCacheRef.set ⟨[[("x", "1")]]⟩ ⟨[]⟩ "p" "k" 0 0).1
        (CookieCacheRef.set ⟨[[("x", "1")]]⟩ ⟨[]⟩ "p" "k" 0 0).2 "p" "k" = (g1, some a2) ∧
      g1.read a2 = RefHeap.read ⟨[[("x", "1")]]⟩ 0 ∧
      a2 ≠ 0 ∧
      (∀ a3, a3 = a2 ∨ a3 = 0 →
        ∃ g2 a4,
          CookieCacheRef.get (g1.write a3 [("y", "2")])
            (CookieCacheRef.set ⟨[[("x", "1")]]⟩ ⟨[]⟩ "p" "k" 0 0).2 "p" "k" =
            (g2, some a4) ∧
          g2.read a4 = RefHeap.read ⟨[[("x", "1")]]⟩ 0)) :=
  ⟨by decide,
   cache_set_get_defensive_copy ⟨[[("x", "1")]]⟩ ⟨[]⟩ "p" "k" 0 0 [("y", "2")] (by decide)⟩

/-- A byte sequence: every element below 256. -/
def BytesValid (l : List Nat) : Prop := ∀ x ∈ l, x < 256

theorem BytesValid.append {a b : List Nat} (ha : BytesValid a) (hb : BytesValid b) :
    BytesValid (a ++ b) := by
  intro x hx
  rcases List.mem_append.mp hx with h | h
  · exact ha x h
  · exact hb x h

theorem BytesValid.cons {a : Nat} {l : List Nat} (ha : a < 256) (hl : BytesValid l) :
    BytesValid (a :: l) := by
  intro x hx
  rcases List.mem_cons.mp hx with h | h
  · rw [h]
    exact ha
  · exact hl x h

theorem b64_char_roundtrip :
    ∀ n : Nat, n < 64 → b64DecChar (b64EncChar n) = some n ∧ b64EncChar n ≠ 61 := by
  decide

theorem b64_roundtrip : ∀ (l : List Nat), BytesValid l → b64decode (b64encode l) = some l
  | [], _ => rfl
  | [b0], h => by
    have hb0 : b0 < 256 := h b0 (by simp)
    have h0 := b64_char_roundtrip (b0 / 4) (by omega)
    have h1 := b64_char_roundtrip (b0 % 4 * 16) (by omega)
    show b64decode [b64EncChar (b0 / 4), b64EncChar (b0 % 4 * 16), 61, 61] = some [b0]
    simp only [b64decode]
    rw [h0.1, h1.1]
    dsimp only
    rw [if_pos (by simp)]
    have harith : b0 / 4 * 4 + b0 % 4 * 16 / 16 = b0 := by omega
    rw [harith]
  | [b0, b1], h => by
    have hb0 : b0 < 256 := h b0 (by simp)
    have hb1 : b1 < 256 := h b1 (by simp)
    have h0 := b64_char_roundtrip (b0 / 4) (by omega)
    have h1 := b64_char_roundtrip (b0 % 4 * 16 + b1 / 16) (by omega)
    have h2 := b64_char_roundtrip (b1 % 16 * 4) (by omega)
    show b64decode [b64EncChar (b0 / 4), b64EncChar (b0 % 4 * 16 + b1 / 16),
      b64EncChar (b1 % 16 * 4), 61] = some [b0, b1]
    simp only [b64decode]
    rw [h0.1, h1.1]
    dsimp only
    rw [if_neg (by simp [h2.2]), if_pos (by simp), h2.1]
    dsimp only
    have ha1 : b0 / 4 * 4 + (b0 % 4 * 16 + b1 / 16) / 16 = b0 := by omega
    have ha2 : (b0 % 4 * 16 + b1 / 16) % 16 * 16 + b1 % 16 * 4 / 4 = b1 := by omega
    rw [ha1, ha2]
  | b0 :: b1 :: b2 :: rest, h => by
    have hb0 : b0 < 256 := h b0 (by simp)
    have hb1 : b1 < 256 := h b1 (by simp)
    have hb2 : b2 < 256 := h b2 (by simp)
    have ih := b64_roundtrip rest (fun x hx => h x (by simp [hx]))
    have h0 := b64_char_roundtrip (b0 / 4) (by omega)
    have h1 := b64_char_roundtrip (b0 % 4 * 16 + b1 / 16) (by omega)
    have h2 := b64_char_roundtrip (b1 % 16 * 4 + b2 / 64) (by omega)
    have h3 := b64_char_roundtrip (b2 % 64) (by omega)
    show b64decode (b64EncChar (b0 / 4) :: b64EncChar (b0 % 4 * 16 + b1 / 16) ::
      b64EncChar (b1 % 16 * 4 + b2 / 64) :: b64EncChar (b2 % 64) ::
      b64encode rest) = some (b0 :: b1 :: b2 :: rest)
    simp only [b64decode]
    rw [h0.1, h1.1]
    dsimp only
    rw [if_neg (by simp [h2.2]), if_neg (by simp [h3.2]), h2.1, h3.1]
    dsimp only
    rw [ih]
    dsimp only
    have ha1 : b0 / 4 * 4 + (b0 % 4 * 16 + b1 / 16) / 16 = b0 := by omega
    have ha2 : (b0 % 4 * 16 + b1 / 16) % 16 * 16 + (b1 % 16 * 4 + b2 / 64) / 4 = b1 := by
      omega
    have ha3 : (b1 % 16 * 4 + b2 / 64) % 4 * 64 + b2 % 64 = b2 := by omega
    rw [ha1, ha2, ha3]

theorem padLen_bounds (n : Nat) : 1 ≤ padLen n ∧ padLen n ≤ 16 := by
  unfold padLen
  omega

theorem pkcs7pad_mod (msg : List Nat) : (pkcs7pad msg).length % 16 = 0 := by
  unfold pkcs7pad padLen
  simp only [List.length_append, List.length_replicate]
  omega

theorem pkcs7pad_valid (msg : List Nat) (h : BytesValid msg) :
    BytesValid (pkcs7pad msg) := by
  apply BytesValid.append h
  intro x hx
  have hx' := List.eq_of_mem_replicate hx
  have hb := padLen_bounds msg.length
  omega

theorem pkcs7unpad_pad (msg : List Nat) : pkcs7unpad (pkcs7pad msg) = some msg := by
  have hb := padLen_bounds msg.length
  have hrep : List.replicate (padLen msg.length) (padLen msg.length) =
      List.replicate (padLen msg.length - 1) (padLen msg.length) ++ [padLen msg.length] := by
    rw [← List.replicate_succ']
    congr 1
    omega
  have hlast : (pkcs7pad msg).getLast? = some (padLen msg.length) := by
    unfold pkcs7pad
    rw [hrep, ← List.append_assoc, List.getLast?_concat]
  have hlen : (pkcs7pad msg).length = msg.length + padLen msg.length := by
    unfold pkcs7pad
    simp
  have hsub : (pkcs7pad msg).length - padLen msg.length = msg.length := by
    rw [hlen]
    omega
  unfold pkcs7unpad
  rw [hlast]
  dsimp only
  have hdrop : (pkcs7pad msg).drop ((pkcs7pad msg).length - padLen msg.length) =
      List.replicate (padLen msg.length) (padLen msg.length) := by
    rw [hsub]
    unfold pkcs7pad
    rw [List.drop_left' rfl]
  have hcond : 1 ≤ padLen msg.length ∧ padLen msg.length ≤ 16 ∧
      padLen msg.length ≤ (pkcs7pad msg).length ∧
      ((pkcs7pad msg).drop ((pkcs7pad msg).length - padLen msg.length)).all
        (fun x => x == padLen msg.length) = true := by
    refine ⟨hb.1, hb.2, by rw [hlen]; omega, ?_⟩
    rw [hdrop, List.all_eq_true]
    intro x hx
    rw [List.eq_of_mem_replicate hx]
    simp
  rw [if_pos hcond, hsub]
  unfold pkcs7pad
  rw [List.take_left' rfl]

theorem toBlocks_flatten (l : List Nat) : (toBlocks l).flatten = l := by
  by_cases hl : l = []
  · subst hl
    rw [toBlocks]
    rfl
  · rw [toBlocks, if_neg hl, List.flatten_cons, toBlocks_flatten (l.drop 16),
        List.take_append_drop]
termination_by l.length
decreasing_by
  have h0 : 0 < l.length := List.length_pos.mpr hl
  rw [List.length_drop]
  omega

theorem toBlocks_length_16 (l : List Nat) (hl : l.length % 16 = 0) :
    ∀ b ∈ toBlocks l, b.length = 16 := by
  by_cases he : l = []
  · subst he
    intro b hb
    rw [toBlocks] at hb
    simp at hb
  · rw [toBlocks, if_neg he]
    intro b hb
    have h0 : 0 < l.length := List.length_pos.mpr he
    have h16 : 16 ≤ l.length := by omega
    rcases List.mem_cons.mp hb with hb | hb
    · rw [hb, List.length_take]
      omega
    · exact toBlocks_length_16 (l.drop 16) (by rw [List.length_drop]; omega) b hb
termination_by l.length
decreasing_by
  have h0 : 0 < l.length := List.length_pos.mpr he
  rw [List.length_drop]
  omega

theorem toBlocks_of_flatten (bs : List (List Nat)) (hbs : ∀ b ∈ bs, b.length = 16) :
    toBlocks bs.flatten = bs := by
  induction bs with
  | nil =>
    rw [toBlocks]
    rfl
  | cons b rest ih =>
    have hb : b.length = 16 := hbs b (by simp)
    have hbne : b ++ rest.flatten ≠ [] := by
      intro hh
      have hb0 : b = [] := by
        cases b with
        | nil => rfl
        | cons y ys => simp at hh
      rw [hb0] at hb
      simp at hb
    rw [List.flatten_cons, toBlocks, if_neg hbne, List.take_left' hb, List.drop_left' hb,
        ih (fun x hx => hbs x (by simp [hx]))]

theorem flatten_length_16 (bs : List (List Nat)) (h : ∀ b ∈ bs, b.length = 16) :
    bs.flatten.length = 16 * bs.length := by
  induction bs with
  | nil => rfl
  | cons b rest ih =>
    simp only [List.flatten_cons, List.length_append, List.length_cons]
    rw [h b (by simp), ih (fun x hx => h x (by simp [hx]))]
    ring

theorem flatten_valid (bs : List (List Nat)) (h : ∀ b ∈ bs, BytesValid b) :
    BytesValid bs.flatten := by
  intro x hx
  rcases List.mem_flatten.mp hx with ⟨b, hb, hxb⟩
  exact h b hb x hxb

theorem xorBytes_length (a b : List Nat) :
    (xorBytes a b).length = min a.length b.length := by
  simp [xorBytes]

theorem xorBytes_cancel : ∀ (a b : List Nat), a.length = b.length →
    xorBytes a (xorBytes a b) = b
  | [], [], _ => rfl
  | [], _ :: _, h => by simp at h
  | _ :: _, [], h => by simp at h
  | x :: xs, y :: ys, h => by
    simp only [xorBytes, List.zipWith_cons_cons]
    rw [Nat.xor_cancel_left]
    have hxs : xs.length = ys.length := by
      simp only [List.length_cons] at h
      omega
    have hrec := xorBytes_cancel xs ys hxs
    simp only [xorBytes] at hrec
    rw [hrec]

theorem xorBytes_valid : ∀ (a b : List Nat), BytesValid a → BytesValid b →
    BytesValid (xorBytes a b)
  | [], _, _, _ => by
    intro x hx
    simp [xorBytes] at hx
  | _ :: _, [], _, _ => by
    intro x hx
    simp [xorBytes] at hx
  | p :: ps, q :: qs, ha, hb => by
    intro x hx
    simp only [xorBytes, List.zipWith_cons_cons, List.mem_cons] at hx
    rcases hx with hx | hx
    · have hp : p < 2 ^ 8 := by
        have := ha p (by simp)
        omega
      have hq : q < 2 ^ 8 := by
        have := hb q (by simp)
        omega
      have := Nat.xor_lt_two_pow hp hq
      omega
    · exact xorBytes_valid ps qs (fun y hy => ha y (by simp [hy]))
        (fun y hy => hb y (by simp [hy])) x hx

theorem cbcEnc_blocks (E : List Nat → List Nat)
    (hElen : ∀ b, b.length = 16 → (E b).length = 16)
    (hEval : ∀ b, BytesValid b → BytesValid (E b)) :
    ∀ (bs : List (List Nat)) (iv : List Nat), iv.length = 16 → BytesValid iv →
      (∀ b ∈ bs, b.length = 16 ∧ BytesValid b) →
      ∀ cb ∈ cbcEnc E iv bs, cb.length = 16 ∧ BytesValid cb
  | [], iv, _, _, _ => by
    intro cb hcb
    simp [cbcEnc] at hcb
  | b :: rest, iv, hiv, hivv, hbs => by
    intro cb hcb
    simp only [cbcEnc, List.mem_cons] at hcb
    have hxlen : (xorBytes iv b).length = 16 := by
      rw [xorBytes_length, hiv, (hbs b (by simp)).1]
      simp
    have hxval : BytesValid (xorBytes iv b) :=
      xorBytes_valid iv b hivv (hbs b (by simp)).2
    have hclen := hElen _ hxlen
    have hcval := hEval _ hxval
    rcases hcb with h | h
    · rw [h]
      exact ⟨hclen, hcval⟩
    · exact cbcEnc_blocks E hElen hEval rest (E (xorBytes iv b)) hclen hcval
        (fun x hx => hbs x (by simp [hx])) cb h

theorem cbcDec_cbcEnc (E D : List Nat → List Nat) (hD : ∀ b, D (E b) = b)
    (hElen : ∀ b, b.length = 16 → (E b).length = 16) :
    ∀ (bs : List (List Nat)) (iv : List Nat), iv.length = 16 →
      (∀ b ∈ bs, b.length = 16) → cbcDec D iv (cbcEnc E iv bs) = bs
  | [], _, _, _ => rfl
  | b :: rest, iv, hiv, hbs => by
    simp only [cbcEnc, cbcDec]
    have hb16 : b.length = 16 := hbs b (by simp)
    have hxlen : (xorBytes iv b).length = 16 := by
      rw [xorBytes_length, hiv, hb16]
      simp
    rw [hD (xorBytes iv b), xorBytes_cancel iv b (by rw [hiv, hb16]),
        cbcDec_cbcEnc E D hD hElen rest (E (xorBytes iv b)) (hElen _ hxlen)
          (fun x hx => hbs x (by simp [hx]))]

/-- Parsing a well-formed Fernet token: `fernetDecrypt` on the encoding of
`0x80 ‖ ts ‖ iv ‖ ct ‖ H(0x80 ‖ ts ‖ iv ‖ ct)` passes every check and
reduces to CBC-decrypting and unpadding `ct`. -/
theorem fernet_decrypt_token (D H : List Nat → List Nat) (ts ivv ct : List Nat)
    (hts : ts.length = 8) (hivv : ivv.length = 16)
    (htsv : BytesValid ts) (hivvv : BytesValid ivv) (hctv : BytesValid ct)
    (hHlen : ∀ x, (H x).length = 32) (hHval : ∀ x, BytesValid (H x))
    (hctmod : ct.length % 16 = 0) :
    fernetDecrypt D H
        (b64encode ((128 :: (ts ++ ivv ++ ct)) ++ H (128 :: (ts ++ ivv ++ ct)))) =
      pkcs7unpad ((cbcDec D ivv (toBlocks ct)).flatten) := by
  have hdata : BytesValid ((128 :: (ts ++ ivv ++ ct)) ++ H (128 :: (ts ++ ivv ++ ct))) := by
    apply BytesValid.append
    · exact BytesValid.cons (by omega) ((htsv.append hivvv).append hctv)
    · exact hHval _
  have hcore : (128 :: (ts ++ ivv ++ ct)).length = 25 + ct.length := by
    simp only [List.length_cons, List.length_append, hts, hivv]
    omega
  have hdatalen : ((128 :: (ts ++ ivv ++ ct)) ++ H (128 :: (ts ++ ivv ++ ct))).length =
      57 + ct.length := by
    rw [List.length_append, hcore, hHlen]
    omega
  unfold fernetDecrypt
  rw [b64_roundtrip _ hdata]
  dsimp only
  rw [if_neg (by rw [hdatalen]; omega)]
  rw [if_neg (by simp)]
  have hsub32 : ((128 :: (ts ++ ivv ++ ct)) ++ H (128 :: (ts ++ ivv ++ ct))).length - 32 =
      (128 :: (ts ++ ivv ++ ct)).length := by
    rw [hdatalen, hcore]
    omega
  rw [hsub32, List.take_left, List.drop_left]
  rw [if_neg (by simp)]
  have hdrop9 : ((128 :: (ts ++ ivv ++ ct)) ++ H (128 :: (ts ++ ivv ++ ct))).drop 9 =
      ivv ++ (ct ++ H (128 :: (ts ++ ivv ++ ct))) := by
    have h1 : (128 :: (ts ++ ivv ++ ct)) ++ H (128 :: (ts ++ ivv ++ ct)) =
        (128 :: ts) ++ (ivv ++ (ct ++ H (128 :: (ts ++ ivv ++ ct)))) := by
      simp [List.append_assoc]
    rw [h1]
    exact List.drop_left' (by simp [hts])
  have hdrop25 : ((128 :: (ts ++ ivv ++ ct)) ++ H (128 :: (ts ++ ivv ++ ct))).drop 25 =
      ct ++ H (128 :: (ts ++ ivv ++ ct)) := by
    have h1 : (128 :: (ts ++ ivv ++ ct)) ++ H (128 :: (ts ++ ivv ++ ct)) =
        (128 :: (ts ++ ivv)) ++ (ct ++ H (128 :: (ts ++ ivv ++ ct))) := by
      simp [List.append_assoc]
    rw [h1]
    exact List.drop_left' (by simp [hts, hivv])
  have hsub57 : ((128 :: (ts ++ ivv ++ ct)) ++ H (128 :: (ts ++ ivv ++ ct))).length - 57 =
      ct.length := by
    rw [hdatalen]
    omega
  rw [hdrop9, List.take_left' hivv, hdrop25, hsub57, List.take_left' rfl]
  rw [if_neg (by rw [hctmod]; simp)]

/-- Claim C9: Fernet decryption inverts Fernet encryption under the same key:
for every valid secret byte string, `decrypt (encrypt s) = s`.  The AES-128
block permutation (`E`, inverted by `D`) and the HMAC-SHA256 tag `H` are the
library's keyed primitives and enter as parameters carrying exactly their
contracts; PKCS7, CBC chaining, the token format and base64url are embedded
concretely. -/
theorem fernet_decrypt_encrypt (E D H : List Nat → List Nat)
    (timestamp iv msg : List Nat)
    (hD : ∀ b, D (E b) = b)
    (hElen : ∀ b, b.length = 16 → (E b).length = 16)
    (hEval : ∀ b, BytesValid b → BytesValid (E b))
    (hHlen : ∀ x, (H x).length = 32)
    (hHval : ∀ x, BytesValid (H x))
    (hts : timestamp.length = 8) (htsv : BytesValid timestamp)
    (hiv : iv.length = 16) (hivv : BytesValid iv)
    (hmsgv : BytesValid msg) :
    fernetDecrypt D H (fernetEncrypt E H timestamp iv msg) = some msg := by
  have hpadmod := pkcs7pad_mod msg
  have hblocks16 : ∀ b ∈ toBlocks (pkcs7pad msg), b.length = 16 :=
    toBlocks_length_16 _ hpadmod
  have hblocksval : ∀ b ∈ toBlocks (pkcs7pad msg), BytesValid b := by
    intro b hb x hx
    have hmem : x ∈ (toBlocks (pkcs7pad msg)).flatten := List.mem_flatten.mpr ⟨b, hb, hx⟩
    rw [toBlocks_flatten] at hmem
    exact pkcs7pad_valid msg hmsgv x hmem
  have hcb : ∀ cb ∈ cbcEnc E iv (toBlocks (pkcs7pad msg)), cb.length = 16 ∧ BytesValid cb :=
    cbcEnc_blocks E hElen hEval _ iv hiv hivv (fun b hb => ⟨hblocks16 b hb, hblocksval b hb⟩)
  have hctmod : ((cbcEnc E iv (toBlocks (pkcs7pad msg))).flatten).length % 16 = 0 := by
    rw [flatten_length_16 _ (fun b hb => (hcb b hb).1)]
    omega
  have hctval : BytesValid ((cbcEnc E iv (toBlocks (pkcs7pad msg))).flatten) :=
    flatten_valid _ (fun b hb => (hcb b hb).2)
  have hctblocks : toBlocks ((cbcEnc E iv (toBlocks (pkcs7pad msg))).flatten) =
      cbcEnc E iv (toBlocks (pkcs7pad msg)) :=
    toBlocks_of_flatten _ (fun b hb => (hcb b hb).1)
  have htok : fernetEncrypt E H timestamp iv msg =
      b64encode ((128 :: (timestamp ++ iv ++ (cbcEnc E iv (toBlocks (pkcs7pad msg))).flatten)) ++
        H (128 :: (timestamp ++ iv ++ (cbcEnc E iv (toBlocks (pkcs7pad msg))).flatten))) := rfl
  rw [htok,
      fernet_decrypt_token D H timestamp iv _ hts hiv htsv hivv hctval hHlen hHval hctmod,
      hctblocks, cbcDec_cbcEnc E D hD hElen _ iv hiv hblocks16, toBlocks_flatten,
      pkcs7unpad_pad]

/-- Witness for the C9 theorem with the identity block permutation and a
constant 32-byte tag on the two-byte secret `"hi"`. -/
theorem fernet_decrypt_encrypt_witness :
    fernetDecrypt (fun b => b) (fun _ => List.replicate 32 1)
      (fernetEncrypt (fun b => b) (fun _ => List.replicate 32 1)
        (List.replicate 8 0) (List.replicate 16 0) [104, 105]) = some [104, 105] :=
  fernet_decrypt_encrypt (fun b => b) (fun b => b) (fun _ => List.replicate 32 1)
    (List.replicate 8 0) (List.replicate 16 0) [104, 105]
    (fun _ => rfl) (fun _ h => h) (fun _ h => h)
    (by intro x; rfl)
    (by intro x y hy; have hy1 := List.eq_of_mem_replicate hy; omega)
    (by decide)
    (by intro y hy; have hy0 := List.eq_of_mem_replicate hy; omega)
    (by decide)
    (by intro y hy; have hy0 := List.eq_of_mem_replicate hy; omega)
    (by intro y hy; simp at hy; rcases hy with h | h <;> omega)

end AuthRelay
